import Mathlib

/-!
Verification of the vtipy2 variable-temperature impedance measurement
controller against its design specification.

The development shallowly embeds the behaviourally relevant parts of the
source: the ramp expansion of `Ramp.__init__`, the input validation of
`RampInputPage.sanity_check` and `RampInputPage.input_ramp`, the
experiment-name de-duplication of `StartPage.start_button_func`, the
per-temperature-point control loops of `RunningPage.ramp_and_measure`, the
temperature sampler `RunningPage._update_temperature_and_time`, the stop
handler `RunningPage.stop_button_func`, and the two analyser sweep loops
(`solartron1260.measure_impedance_process` and
`SP_200.measure_impedance_process` with `SP_200.get_result`).

Numeric values are modelled by rationals (reals where base-10 logarithms
are involved); a Python exception is modelled by `Option`/`Except`; the
hardware is modelled by explicit response traces indexed by call number or
by elapsed seconds.
-/

namespace Vtipy2

/-- Python `int(x)` on a rational: truncation toward zero. -/
def pyInt (x : ℚ) : ℤ := if 0 ≤ x then ⌊x⌋ else ⌈x⌉

/-- Python 3 `round(x)` to an integer: nearest, ties to even. -/
def pyRoundInt (x : ℚ) : ℤ :=
  if x - ⌊x⌋ < 1 / 2 then ⌊x⌋
  else if 1 / 2 < x - ⌊x⌋ then ⌊x⌋ + 1
  else if ⌊x⌋ % 2 = 0 then ⌊x⌋ else ⌊x⌋ + 1

/-- Python `round(x, 2)`: round to two decimal places. -/
def pyRound2 (x : ℚ) : ℚ := (pyRoundInt (100 * x) : ℚ) / 100

/-- Python `x % 1`: the fractional part. -/
def pyMod1 (x : ℚ) : ℚ := x - ⌊x⌋

theorem pyRound2_of_int_mul (x : ℚ) (a : ℤ) (h : 100 * x = a) : pyRound2 x = x := by
  have hfl : ⌊100 * x⌋ = a := by rw [h]; exact Int.floor_intCast a
  have hfrac : (100 : ℚ) * x - ⌊100 * x⌋ = 0 := by rw [hfl, h]; ring
  have : pyRoundInt (100 * x) = a := by
    unfold pyRoundInt
    rw [hfrac, hfl]
    norm_num
  unfold pyRound2
  rw [this, ← h]
  ring

theorem pyInt_natAbs (x : ℚ) : ((pyInt x).natAbs : ℤ) = ⌊|x|⌋ := by
  unfold pyInt
  rcases le_or_lt 0 x with hx | hx
  · rw [if_pos hx, Int.natAbs_of_nonneg (Int.floor_nonneg.mpr hx), abs_of_nonneg hx]
  · rw [if_neg (not_le.mpr hx), abs_of_neg hx]
    have hfl : ⌊-x⌋ = -⌈x⌉ := Int.floor_neg
    have hge : 0 ≤ ⌊-x⌋ := Int.floor_nonneg.mpr (by linarith)
    omega

/-- `pyMod1 |x| = 0` means `x` is an integer. -/
theorem pyMod1_abs_eq_zero (x : ℚ) (h : pyMod1 |x| = 0) : ∃ j : ℤ, x = j := by
  unfold pyMod1 at h
  have habs : |x| = (⌊|x|⌋ : ℚ) := by linarith
  rcases abs_cases x with ⟨h1, _⟩ | ⟨h1, _⟩
  · exact ⟨⌊|x|⌋, by rw [← habs, h1]⟩
  · exact ⟨-⌊|x|⌋, by push_cast; rw [← habs]; linarith⟩

/-! ## Ramp expansion (`Ramp.__init__`) -/

/-- direction flag `self.up`: true iff `start_temp <= end_temp`. -/
def rampUp (start_temp end_temp : ℚ) : Bool := decide (start_temp ≤ end_temp)

/-- cooling-rate cap: a downward ramp with `rate > 15` is clamped to 15 °C/min. -/
def clampRate (start_temp end_temp rate : ℚ) : ℚ :=
  if rampUp start_temp end_temp = false ∧ 15 < rate then 15 else rate

/-- `self.num_intervals = abs(int((end_temp - start_temp) / interval))`, computed
with the interval as entered (the sign flip happens afterwards). -/
def numIntervals (start_temp end_temp interval : ℚ) : ℕ :=
  (pyInt ((end_temp - start_temp) / interval)).natAbs

/-- the interval after `Ramp.__init__`: downward ramps force `-abs(interval)`. -/
def signedInterval (start_temp end_temp interval : ℚ) : ℚ :=
  if rampUp start_temp end_temp then interval else -|interval|

/-- the full set-point list `self.temps` as first computed:
`round(start_temp + i * interval, 2)` for `i = 0 .. num_intervals`. -/
def rampTempsFull (start_temp end_temp interval : ℚ) : List ℚ :=
  (List.range (numIntervals start_temp end_temp interval + 1)).map
    (fun i : ℕ => pyRound2 (start_temp + i * signedInterval start_temp end_temp interval))

/-- `self.temps` after the `scan_at_first_T` handling: the value `"n"` pops the
first element; any other value leaves the list unchanged. -/
def rampTemps (start_temp end_temp interval : ℚ) (scan : String) : List ℚ :=
  if scan = "n" then (rampTempsFull start_temp end_temp interval).drop 1
  else rampTempsFull start_temp end_temp interval

/-- the sequence of set-points `RunningPage.ramp_and_measure` heats to and holds
at: the loop `for temp_interval_num, temp in enumerate(ramp.temps)` iterates the
very same `self.temps` list that the scan flag already popped from. -/
def heatingPathTemps (start_temp end_temp interval : ℚ) (scan : String) : List ℚ :=
  rampTemps start_temp end_temp interval scan

theorem pyInt_intCast (n : ℤ) : pyInt n = n := by
  unfold pyInt
  rcases le_or_lt 0 (n : ℚ) with h | h
  · rw [if_pos h, Int.floor_intCast]
  · rw [if_neg (not_le.mpr h), Int.ceil_intCast]

/-- two-decimal inputs make the `round(x, 2)` in the set-point list a no-op. -/
theorem rampTempsFull_unrounded (start_temp end_temp interval : ℚ)
    (hs : ∃ a : ℤ, 100 * start_temp = a) (hiv : ∃ b : ℤ, interval = b) :
    rampTempsFull start_temp end_temp interval
      = (List.range (numIntervals start_temp end_temp interval + 1)).map
          (fun k : ℕ => start_temp + k * signedInterval start_temp end_temp interval) := by
  obtain ⟨a, ha⟩ := hs
  obtain ⟨b, hb⟩ := hiv
  have hsgn : ∃ c : ℤ, signedInterval start_temp end_temp interval = c := by
    unfold signedInterval
    rcases ite_eq_or_eq (rampUp start_temp end_temp = true) interval
        (-|interval|) with h | h
    · exact ⟨b, by rw [h, hb]⟩
    · refine ⟨-|b|, ?_⟩
      rw [h, hb]
      push_cast
      ring
  obtain ⟨c, hc⟩ := hsgn
  unfold rampTempsFull
  refine List.map_congr_left (fun i _ => ?_)
  refine pyRound2_of_int_mul _ (a + i * (100 * c)) ?_
  rw [hc]
  push_cast
  rw [← ha]
  ring

theorem numIntervals_30_60_10 : numIntervals 30 60 10 = 3 := by
  unfold numIntervals
  rw [show ((60 : ℚ) - 30) / 10 = ((3 : ℤ) : ℚ) by norm_num, pyInt_intCast]
  decide

theorem numIntervals_60_30_10 : numIntervals 60 30 10 = 3 := by
  unfold numIntervals
  rw [show ((30 : ℚ) - 60) / 10 = ((-3 : ℤ) : ℚ) by norm_num, pyInt_intCast]
  decide

theorem rampTempsFull_30_60_10 : rampTempsFull 30 60 10 = [30, 40, 50, 60] := by
  rw [rampTempsFull_unrounded 30 60 10 ⟨3000, by norm_num⟩ ⟨10, by norm_num⟩,
    numIntervals_30_60_10,
    show signedInterval 30 60 10 = 10 by unfold signedInterval rampUp; norm_num]
  simp [List.range_succ]
  norm_num

theorem rampTempsFull_60_30_10 : rampTempsFull 60 30 10 = [60, 50, 40, 30] := by
  rw [rampTempsFull_unrounded 60 30 10 ⟨6000, by norm_num⟩ ⟨10, by norm_num⟩,
    numIntervals_60_30_10,
    show signedInterval 60 30 10 = -10 by unfold signedInterval rampUp; norm_num]
  simp [List.range_succ]
  norm_num

/-- C1 counterexample: for the ramp `start_temp=30, end_temp=60, interval=10`
with `scan_at_first_temperature = "n"`, the first element 30 is removed from the
measurement list, but the heating-path list that `ramp_and_measure` iterates is
the very same reduced list, so it does not contain the dropped first set-point:
the stage never heats to or holds at 30 °C. -/
theorem c1_counterexample :
    rampTemps 30 60 10 "n" = [40, 50, 60] ∧
    heatingPathTemps 30 60 10 "n" = [40, 50, 60] ∧
    (30 : ℚ) ∉ heatingPathTemps 30 60 10 "n" := by
  have h : rampTemps 30 60 10 "n" = [40, 50, 60] := by
    rw [rampTemps, if_pos rfl, rampTempsFull_30_60_10]
    rfl
  refine ⟨h, h, ?_⟩
  rw [heatingPathTemps, h]
  norm_num

/-- C1 (amended): with `scan_at_first_temperature = "n"` exactly the first
element is removed from the measurement list, and the heating path uses that
same reduced list, so the dropped first set-point is not heated to or held at. -/
theorem c1_first_point_dropped_everywhere (start_temp end_temp interval : ℚ) :
    rampTemps start_temp end_temp interval "n"
      = (rampTempsFull start_temp end_temp interval).drop 1 ∧
    heatingPathTemps start_temp end_temp interval "n"
      = rampTemps start_temp end_temp interval "n" :=
  ⟨by rw [rampTemps, if_pos rfl], rfl⟩

/-- C6: the set-point expansion produces `start_temp + k * interval` for
`k = 0 .. num_intervals` with `num_intervals = floor(+abs(end-start) / abs(interval))`,
whenever the inputs are exactly representable at two decimals (so that the
source's `round(x, 2)` is the identity); in particular the ramp
`30 -> 60` at interval 10 yields `[30, 40, 50, 60]`, the reversed ramp yields
`[60, 50, 40, 30]`, and a ramp with `start_temp = end_temp` yields the single
point `start_temp`, subject to `scan_at_first_temperature`. -/
theorem c6_setpoint_expansion (start_temp end_temp interval : ℚ)
    (hs : ∃ a : ℤ, 100 * start_temp = a) (hiv : ∃ b : ℤ, interval = b)
    (hiv0 : interval ≠ 0) :
    rampTempsFull start_temp end_temp interval
      = (List.range (numIntervals start_temp end_temp interval + 1)).map
          (fun k : ℕ => start_temp + k * signedInterval start_temp end_temp interval) ∧
    ((numIntervals start_temp end_temp interval : ℤ)
      = ⌊|end_temp - start_temp| / |interval|⌋) ∧
    rampTempsFull 30 60 10 = [30, 40, 50, 60] ∧
    rampTempsFull 60 30 10 = [60, 50, 40, 30] ∧
    (start_temp = end_temp →
      rampTemps start_temp end_temp interval "y" = [start_temp] ∧
      rampTemps start_temp end_temp interval "n" = []) := by
  refine ⟨rampTempsFull_unrounded start_temp end_temp interval hs hiv, ?_,
    rampTempsFull_30_60_10, rampTempsFull_60_30_10, ?_⟩
  · unfold numIntervals
    rw [pyInt_natAbs, abs_div]
  · intro heq
    have h0 : numIntervals start_temp end_temp interval = 0 := by
      unfold numIntervals
      rw [heq, sub_self, zero_div, show ((0 : ℚ)) = ((0 : ℤ) : ℚ) by norm_num, pyInt_intCast]
      decide
    have hfull : rampTempsFull start_temp end_temp interval = [start_temp] := by
      rw [rampTempsFull_unrounded start_temp end_temp interval hs hiv, h0]
      simp [List.range_succ]
    constructor
    · rw [rampTemps, if_neg (by decide), hfull]
    · rw [rampTemps, if_pos rfl, hfull]
      rfl

/-- C6 witness: the theorem applied to the concrete ramp `30 -> 60` step 10. -/
theorem c6_witness : rampTempsFull 30 60 10 = [30, 40, 50, 60] :=
  (c6_setpoint_expansion 30 60 10 ⟨3000, by norm_num⟩ ⟨10, by norm_num⟩
    (by norm_num)).2.2.1

/-! ## Ramp validation (`RampInputPage.sanity_check` / `input_ramp`) -/

/-- temperature and rate limits reported by the stage driver. -/
structure StageLimits where
  min_temp : ℚ
  max_temp : ℚ
  min_rate : ℚ
  max_rate : ℚ

/-- voltage and frequency limits reported by the analyser driver. -/
structure AnalyserLimits where
  min_V : ℚ
  max_V : ℚ
  min_frequency : ℚ
  max_frequency : ℚ

/-- a `Ramp` instance after `Ramp.__init__` has run (rate clamped, interval
signed, `scan_at_first_T` parsed to a boolean, `none` when the input string was
neither `"y"` nor `"n"`). -/
structure Ramp where
  start_temp : ℚ
  end_temp : ℚ
  rate : ℚ
  interval : ℚ
  min_holdtime : ℤ
  voltage : ℚ
  fmin : ℚ
  fmax : ℚ
  ppd : ℤ
  num_sweeps_at_T : ℤ
  sweep_delay : ℤ
  scan_at_first_T : Option Bool

/-- `Ramp.__init__` field computation from the raw entry values. -/
def mkRamp (start_temp end_temp rate interval : ℚ) (min_holdtime : ℤ)
    (voltage fmin fmax : ℚ) (ppd num_sweeps sweep_delay : ℤ) (scan : String) : Ramp where
  start_temp := start_temp
  end_temp := end_temp
  rate := clampRate start_temp end_temp rate
  interval := signedInterval start_temp end_temp interval
  min_holdtime := min_holdtime
  voltage := voltage
  fmin := fmin
  fmax := fmax
  ppd := ppd
  num_sweeps_at_T := num_sweeps
  sweep_delay := sweep_delay
  scan_at_first_T :=
    if scan = "y" then some true else if scan = "n" then some false else none

/-- `RampInputPage.sanity_check`: returns the fault name of the first failing
check, or `none` when the ramp is accepted.  (The two `isinstance(-, int)`
checks of the source are vacuous here because `ppd` and `num_sweeps_at_T` are
integers by type.) -/
def sanity_check (stage : StageLimits) (analyser : AnalyserLimits) (r : Ramp) :
    Option String :=
  if ¬(stage.min_temp ≤ r.start_temp ∧ r.start_temp ≤ stage.max_temp) then some "Start Temp"
  else if ¬(stage.min_temp ≤ r.end_temp ∧ r.end_temp ≤ stage.max_temp) then some "End Temp"
  else if ¬(stage.min_rate ≤ r.rate ∧ r.rate ≤ stage.max_rate) then some "Rate"
  else if pyMod1 |(r.end_temp - r.start_temp) / r.interval| ≠ 0 then
    some "(T2 - T1) / dT =/= 0"
  else if |r.interval| < 1 then some "Interval"
  else if ¬(1 ≤ r.min_holdtime ∧ r.min_holdtime ≤ 30000000) then some "Minimum Holdtime"
  else if ¬(analyser.min_V ≤ r.voltage ∧ r.voltage ≤ analyser.max_V) then some "Voltage"
  else if r.fmax ≤ r.fmin then some "fmin >= fmax"
  else if r.fmin < analyser.min_frequency then some "Minimum Frequency"
  else if analyser.max_frequency < r.fmax then some "Maximum Frequency"
  else if r.ppd < 1 then some "PPD"
  else if r.num_sweeps_at_T < 0 then some "#Sweeps"
  else if r.sweep_delay < 5 then some "Sweep Delay"
  else if r.scan_at_first_T = none then some "Scan @ first T y/n"
  else none

/-- `RampInputPage.input_ramp`: the ramp is appended to the global ramps list
only when the sanity check reports no fault. -/
def input_ramp (stage : StageLimits) (analyser : AnalyserLimits)
    (ramps : List Ramp) (r : Ramp) : List Ramp :=
  if sanity_check stage analyser r = none then ramps ++ [r] else ramps

theorem sanity_check_none (stage : StageLimits) (analyser : AnalyserLimits) (r : Ramp)
    (h : sanity_check stage analyser r = none) :
    (stage.min_rate ≤ r.rate ∧ r.rate ≤ stage.max_rate) ∧
    pyMod1 |(r.end_temp - r.start_temp) / r.interval| = 0 ∧
    ¬(|r.interval| < 1) ∧ ¬(r.ppd < 1) := by
  unfold sanity_check at h
  by_cases c1 : ¬(stage.min_temp ≤ r.start_temp ∧ r.start_temp ≤ stage.max_temp)
  · rw [if_pos c1] at h; exact Option.noConfusion h
  rw [if_neg c1] at h
  by_cases c2 : ¬(stage.min_temp ≤ r.end_temp ∧ r.end_temp ≤ stage.max_temp)
  · rw [if_pos c2] at h; exact Option.noConfusion h
  rw [if_neg c2] at h
  by_cases c3 : ¬(stage.min_rate ≤ r.rate ∧ r.rate ≤ stage.max_rate)
  · rw [if_pos c3] at h; exact Option.noConfusion h
  rw [if_neg c3] at h
  by_cases c4 : pyMod1 |(r.end_temp - r.start_temp) / r.interval| ≠ 0
  · rw [if_pos c4] at h; exact Option.noConfusion h
  rw [if_neg c4] at h
  by_cases c5 : |r.interval| < 1
  · rw [if_pos c5] at h; exact Option.noConfusion h
  rw [if_neg c5] at h
  by_cases c6 : ¬(1 ≤ r.min_holdtime ∧ r.min_holdtime ≤ 30000000)
  · rw [if_pos c6] at h; exact Option.noConfusion h
  rw [if_neg c6] at h
  by_cases c7 : ¬(analyser.min_V ≤ r.voltage ∧ r.voltage ≤ analyser.max_V)
  · rw [if_pos c7] at h; exact Option.noConfusion h
  rw [if_neg c7] at h
  by_cases c8 : r.fmax ≤ r.fmin
  · rw [if_pos c8] at h; exact Option.noConfusion h
  rw [if_neg c8] at h
  by_cases c9 : r.fmin < analyser.min_frequency
  · rw [if_pos c9] at h; exact Option.noConfusion h
  rw [if_neg c9] at h
  by_cases c10 : analyser.max_frequency < r.fmax
  · rw [if_pos c10] at h; exact Option.noConfusion h
  rw [if_neg c10] at h
  by_cases c11 : r.ppd < 1
  · rw [if_pos c11] at h; exact Option.noConfusion h
  exact ⟨not_not.mp c3, not_not.mp c4, c5, c11⟩

/-- C3: a ramp whose interval does not evenly divide the temperature span, or
whose rate is zero (given the driver reports a positive minimum rate, as the
virtual stage does), or whose points-per-decade is below 1, is assigned a fault
name by `sanity_check`, and `input_ramp` leaves the ramps list unchanged: the
invalid ramp is never entered. -/
theorem c3_invalid_ramp_rejected (stage : StageLimits) (analyser : AnalyserLimits)
    (start_temp end_temp rate interval : ℚ) (min_holdtime : ℤ)
    (voltage fmin fmax : ℚ) (ppd num_sweeps sweep_delay : ℤ) (scan : String)
    (hmin_rate : 0 < stage.min_rate)
    (h : (¬∃ k : ℤ, end_temp - start_temp = k * interval) ∨ rate = 0 ∨ ppd < 1) :
    sanity_check stage analyser
      (mkRamp start_temp end_temp rate interval min_holdtime voltage fmin fmax
        ppd num_sweeps sweep_delay scan) ≠ none ∧
    ∀ ramps, input_ramp stage analyser ramps
      (mkRamp start_temp end_temp rate interval min_holdtime voltage fmin fmax
        ppd num_sweeps sweep_delay scan) = ramps := by
  set r := mkRamp start_temp end_temp rate interval min_holdtime voltage fmin fmax
    ppd num_sweeps sweep_delay scan with hr
  have hne : sanity_check stage analyser r ≠ none := by
    intro hnone
    obtain ⟨⟨hrl, _⟩, hdiv, hint, hppd⟩ := sanity_check_none stage analyser r hnone
    rcases h with hk | h0 | hp
    · -- the divisibility check passed, so the span is an integer multiple of the interval
      have hiv0 : r.interval ≠ 0 := by
        intro hz
        rw [hz] at hint
        simp at hint
      obtain ⟨j, hj⟩ := pyMod1_abs_eq_zero _ hdiv
      have hspan : r.end_temp - r.start_temp = j * r.interval := by
        field_simp at hj
        linarith [hj]
      have hst : r.start_temp = start_temp := rfl
      have het : r.end_temp = end_temp := rfl
      have hsi : r.interval = signedInterval start_temp end_temp interval := rfl
      apply hk
      rw [hst, het, hsi] at hspan
      unfold signedInterval at hspan
      by_cases hdir : rampUp start_temp end_temp = true
      · rw [if_pos hdir] at hspan
        exact ⟨j, hspan⟩
      · rw [if_neg hdir] at hspan
        rcases abs_cases interval with ⟨hab, _⟩ | ⟨hab, _⟩
        · exact ⟨-j, by rw [hab] at hspan; push_cast; linarith⟩
        · exact ⟨j, by rw [hab] at hspan; push_cast; linarith⟩
    · -- the rate check passed, but the clamped rate of a zero-rate ramp is zero
      have : r.rate = 0 := by
        rw [hr]
        show clampRate start_temp end_temp rate = 0
        unfold clampRate
        rw [h0]
        norm_num
      rw [this] at hrl
      linarith
    · exact hppd hp
  refine ⟨hne, fun ramps => ?_⟩
  unfold input_ramp
  rw [if_neg hne]

/-- C3 witness: the virtual stage and the Solartron 1260 limits with a
zero-rate ramp. -/
theorem c3_witness :
    sanity_check ⟨0, 500, 1, 30⟩ ⟨1 / 1000000, 1000, 1 / 100000, 32000000⟩
      (mkRamp 30 60 0 10 300 50 (1 / 10) 10000000 10 1 300 "y") ≠ none :=
  (c3_invalid_ramp_rejected ⟨0, 500, 1, 30⟩ ⟨1 / 1000000, 1000, 1 / 100000, 32000000⟩
    30 60 0 10 300 50 (1 / 10) 10000000 10 1 300 "y" (by norm_num)
    (Or.inr (Or.inl rfl))).1

/-! ## Frequency list (`Ramp.__init__`: `numpoints` and `frange`) -/

/-- Python `int()` truncation toward zero on a real. -/
noncomputable def pyIntR (x : ℝ) : ℤ := if 0 ≤ x then ⌊x⌋ else ⌈x⌉

/-- `self.numpoints = int(self.ppd * (np.log10(self.fmax) - np.log10(self.fmin)))`. -/
noncomputable def numpoints (ppd : ℤ) (fmin fmax : ℝ) : ℤ :=
  pyIntR ((ppd : ℝ) * (Real.logb 10 fmax - Real.logb 10 fmin))

/-- `np.logspace(a, b, num = n)`: the `n` points `10 ** (a + i * (b - a) / (n - 1))`
for `i = 0 .. n - 1` (numpy includes both endpoints). -/
noncomputable def logspace (a b : ℝ) (n : ℕ) : List ℝ :=
  (List.range n).map (fun i : ℕ => (10 : ℝ) ^ (a + i * ((b - a) / ((n : ℝ) - 1))))

/-- `self.frange = list(frange_full[::-1])`: the log-spaced points from
`fmin` to `fmax`, reversed to descend. -/
noncomputable def frange (fmin fmax : ℝ) (n : ℕ) : List ℝ :=
  (logspace (Real.logb 10 fmin) (Real.logb 10 fmax) n).reverse

/-- C7: the derived frequency list has `floor(ppd * log10(fmax / fmin))`
log-spaced points, strictly descending from `fmax` down to `fmin`. -/
theorem c7_frequency_list (ppd : ℤ) (fmin fmax : ℝ) (n : ℕ)
    (h0 : 0 < fmin) (h1 : fmin < fmax) (hppd : 1 ≤ ppd)
    (hn : (numpoints ppd fmin fmax).toNat = n) (h2 : 2 ≤ n) :
    numpoints ppd fmin fmax = ⌊(ppd : ℝ) * Real.logb 10 (fmax / fmin)⌋ ∧
    (frange fmin fmax n).length = n ∧
    (frange fmin fmax n).head? = some fmax ∧
    (frange fmin fmax n).getLast? = some fmin ∧
    (frange fmin fmax n).Pairwise (fun x y => y < x) := by
  have hfmax0 : 0 < fmax := lt_trans h0 h1
  have hb1 : (1 : ℝ) < 10 := by norm_num
  have hlogle : Real.logb 10 fmin ≤ Real.logb 10 fmax :=
    Real.logb_le_logb_of_le hb1 h0 (le_of_lt h1)
  have hloglt : Real.logb 10 fmin < Real.logb 10 fmax :=
    Real.logb_lt_logb hb1 h0 h1
  set a := Real.logb 10 fmin with ha
  set b := Real.logb 10 fmax with hbdef
  have hppdR : (1 : ℝ) ≤ (ppd : ℝ) := by exact_mod_cast hppd
  have hnum : numpoints ppd fmin fmax = ⌊(ppd : ℝ) * (b - a)⌋ := by
    unfold numpoints pyIntR
    rw [if_pos (mul_nonneg (by linarith) (by linarith))]
  have hnR : (2 : ℝ) ≤ (n : ℝ) := by exact_mod_cast h2
  have hden : (n : ℝ) - 1 ≠ 0 := by linarith
  have hstep_pos : 0 < (b - a) / ((n : ℝ) - 1) := div_pos (by linarith) (by linarith)
  have hlen : (logspace a b n).length = n := by simp [logspace]
  refine ⟨?_, ?_, ?_, ?_, ?_⟩
  · rw [hnum, Real.logb_div (ne_of_gt hfmax0) (ne_of_gt h0)]
  · simp [frange, logspace]
  · rw [frange, List.head?_reverse, List.getLast?_eq_getElem?, hlen]
    have hidx : n - 1 < (logspace a b n).length := by rw [hlen]; omega
    rw [List.getElem?_eq_getElem hidx]
    congr 1
    simp only [logspace, List.getElem_map, List.getElem_range]
    have hcast : ((n - 1 : ℕ) : ℝ) = (n : ℝ) - 1 := by
      rw [Nat.cast_sub (by omega : 1 ≤ n)]
      norm_num
    have hmul : ((n : ℝ) - 1) * ((b - a) / ((n : ℝ) - 1)) = b - a := by
      field_simp
    rw [hcast, hmul, show a + (b - a) = b by ring,
      Real.rpow_logb (by norm_num) (by norm_num) hfmax0]
  · rw [frange, List.getLast?_reverse, List.head?_eq_getElem?]
    have hidx : 0 < (logspace a b n).length := by rw [hlen]; omega
    rw [List.getElem?_eq_getElem hidx]
    congr 1
    simp only [logspace, List.getElem_map, List.getElem_range]
    rw [show a + ((0 : ℕ) : ℝ) * ((b - a) / ((n : ℝ) - 1)) = a by push_cast; ring,
      Real.rpow_logb (by norm_num) (by norm_num) h0]
  · rw [frange, List.pairwise_reverse]
    unfold logspace
    rw [List.pairwise_map]
    refine List.Pairwise.imp ?_ (List.pairwise_lt_range n)
    intro i j hij
    show (10 : ℝ) ^ (a + i * ((b - a) / ((n : ℝ) - 1)))
        < (10 : ℝ) ^ (a + j * ((b - a) / ((n : ℝ) - 1)))
    refine (Real.rpow_lt_rpow_left_iff hb1).mpr ?_
    have : (i : ℝ) < (j : ℝ) := by exact_mod_cast hij
    nlinarith [hstep_pos]

/-- C7 witness: `fmin = 0.1`, `fmax = 1e7`, `points_per_decade = 10` gives a
descending 80-point list from `1e7` down to `0.1`. -/
theorem c7_witness :
    (numpoints 10 (1 / 10) 10000000).toNat = 80 ∧
    (frange (1 / 10) 10000000 80).length = 80 ∧
    (frange (1 / 10) 10000000 80).head? = some 10000000 ∧
    (frange (1 / 10) 10000000 80).getLast? = some (1 / 10) := by
  have hlog1 : Real.logb 10 (10000000 : ℝ) = 7 := by
    rw [show (10000000 : ℝ) = (10 : ℝ) ^ (7 : ℝ) by
        rw [show (7 : ℝ) = ((7 : ℕ) : ℝ) by norm_num, Real.rpow_natCast]; norm_num,
      Real.logb_rpow (by norm_num) (by norm_num)]
  have hlog2 : Real.logb 10 ((1 : ℝ) / 10) = -1 := by
    rw [show (1 / 10 : ℝ) = (10 : ℝ) ^ ((-1) : ℝ) by
        rw [show ((-1) : ℝ) = ((-1 : ℤ) : ℝ) by norm_num, Real.rpow_intCast]; norm_num,
      Real.logb_rpow (by norm_num) (by norm_num)]
  have hnum : numpoints 10 (1 / 10) 10000000 = 80 := by
    unfold numpoints pyIntR
    rw [hlog1, hlog2]
    norm_num
  have h := c7_frequency_list 10 (1 / 10) 10000000 80 (by norm_num) (by norm_num)
    (by norm_num) (by rw [hnum]; rfl) (by norm_num)
  exact ⟨by rw [hnum]; rfl, h.2.1, h.2.2.1, h.2.2.2.1⟩

/-! ## Solartron sweep (`solartron1260.measure_impedance_process`) -/

/-- the row formatting `",".join(result.split(",")[:4])`: keep the first four
comma-separated fields. -/
def formatRow (result : String) : String :=
  String.intercalate "," ((result.splitOn ",").take 4)

/-- outcome of one sweep run: the number of `measure_frequency` calls issued,
the data rows appended to the sweep file (in order), and whether the frequency
loop completed (`false` = the measuring thread died on an uncaught exception). -/
structure SweepOut where
  calls : ℕ
  rows : List String
  completed : Bool
deriving DecidableEq

/-- the frequency loop of `measure_impedance_process`: `device t f` is the
outcome of `measure_frequency` call number `t` at frequency `f` (`none` models a
raised exception).  A first failure triggers a probe measurement at the nominal
1 Hz frequency followed by one retry of the original frequency; a failure of the
probe or of the retry propagates uncaught and kills the thread, leaving exactly
the rows written so far. -/
def sweepRun (device : ℕ → ℝ → Option String) : List ℝ → ℕ → List String → SweepOut
  | [], t, rows => ⟨t, rows, true⟩
  | f :: fs, t, rows =>
    match device t f with
    | some r => sweepRun device fs (t + 1) (rows ++ [formatRow r])
    | none =>
      match device (t + 1) 1 with
      | none => ⟨t + 2, rows, false⟩
      | some _ =>
        match device (t + 2) f with
        | none => ⟨t + 3, rows, false⟩
        | some r => sweepRun device fs (t + 3) (rows ++ [formatRow r])

/-! ## Biologic sweep (`SP_200.measure_impedance_process` / `SP_200.get_result`) -/

/-- exceptions the biologic result conversion can raise. -/
inductive PyErr
  | zeroDivision
  | indexError
deriving DecidableEq

/-- one `BL_GetData` answer: the reported process index and the converted
buffer contents. -/
structure BLPacket where
  processIndex : ℤ
  data : List ℚ

/-- the final line of `SP_200.get_result`:
`result = [round(data[0], 2), round(abs(data[1]) / abs(data[2]), 2), round(data[3], 2)]`
with Python's left-to-right evaluation: a third entry equal to zero raises
`ZeroDivisionError` before `data[3]` is touched, and a list shorter than four
raises `IndexError` at the first missing index. -/
def resultRow : List ℚ → Except PyErr (List ℚ)
  | [] => .error .indexError
  | [_] => .error .indexError
  | [_, _] => .error .indexError
  | [_, _, c] => if c = 0 then .error .zeroDivision else .error .indexError
  | a :: b :: c :: d :: _ =>
      if c = 0 then .error .zeroDivision
      else .ok [pyRound2 a, pyRound2 (|b| / |c|), pyRound2 d]

/-- the `while not data` loop of `SP_200.get_result`: `packets k` is the answer
to `BL_GetData` call number `k`; packets whose process index is not 1, and
process-1 packets carrying no rows, leave `data` empty and are polled past.  On
the first process-1 packet with data the result row is computed and returned
with `int(infos.ProcessIndex)` (necessarily 1) and the next call cursor; `none`
means the polling fuel ran out. -/
def get_result (packets : ℕ → BLPacket) : ℕ → ℕ → Option (ℕ × Except PyErr (List ℚ × ℤ))
  | _, 0 => none
  | k, fuel + 1 =>
      if (packets k).processIndex = 1 ∧ (packets k).data ≠ [] then
        some (k + 1, (resultRow (packets k).data).map (fun r => (r, 1)))
      else get_result packets (k + 1) fuel

/-- the main loop of `SP_200.measure_impedance_process`: `numpoints` iterations,
each calling `get_result` and appending its row to the sweep file when the
returned process index is 1; an exception from `get_result` kills the thread. -/
def biologicSweep (packets : ℕ → BLPacket) (fuel : ℕ) :
    ℕ → ℕ → List (List ℚ) → List (List ℚ) × Bool
  | 0, _, rows => (rows, true)
  | npts + 1, k, rows =>
      match get_result packets k fuel with
      | none => (rows, false)
      | some (_, .error _) => (rows, false)
      | some (k2, .ok (r, pi)) =>
          biologicSweep packets fuel npts k2 (if pi = 1 then rows ++ [r] else rows)

theorem get_result_ok (packets : ℕ → BLPacket) (k fuel : ℕ) (r : List ℚ)
    (h1 : (packets k).processIndex = 1) (h2 : resultRow (packets k).data = .ok r) :
    get_result packets k (fuel + 1) = some (k + 1, .ok (r, 1)) := by
  have hne : (packets k).data ≠ [] := by
    intro he
    rw [he] at h2
    exact Except.noConfusion h2
  unfold get_result
  rw [if_pos ⟨h1, hne⟩, h2]
  rfl

/-- C4: with no failures the solartron frequency loop emits exactly one row per
input frequency, in frequency-list (high-to-low) order, appending each row as it
is obtained (the rows already written are always a prefix of the final file, so
an interrupted sweep leaves a valid partial file); and the biologic loop appends
exactly one row per iteration, `numpoints` in total, whenever every packet
carries a convertible process-1 data row. -/
theorem c4_sweep_emits_one_row_per_frequency
    (device : ℕ → ℝ → Option String) (resp : ℝ → String)
    (hdev : ∀ t f, device t f = some (resp f)) :
    (∀ (fs : List ℝ) (t : ℕ) (rows : List String),
      sweepRun device fs t rows
        = ⟨t + fs.length, rows ++ fs.map (fun f => formatRow (resp f)), true⟩) ∧
    (∀ (dev2 : ℕ → ℝ → Option String) (fs : List ℝ) (t : ℕ) (rows : List String),
      rows <+: (sweepRun dev2 fs t rows).rows) ∧
    (∀ (packets : ℕ → BLPacket) (fuel npts k : ℕ) (rows : List (List ℚ)),
      1 ≤ fuel →
      (∀ j, (packets j).processIndex = 1 ∧ ∃ r, resultRow (packets j).data = .ok r) →
      (biologicSweep packets fuel npts k rows).1.length = rows.length + npts ∧
      (biologicSweep packets fuel npts k rows).2 = true) := by
  refine ⟨?_, ?_, ?_⟩
  · intro fs
    induction fs with
    | nil => intro t rows; simp [sweepRun]
    | cons f fs ih =>
      intro t rows
      rw [sweepRun, hdev t f]
      show sweepRun device fs (t + 1) (rows ++ [formatRow (resp f)]) = _
      rw [ih]
      simp only [SweepOut.mk.injEq, List.append_assoc, List.singleton_append,
        List.map_cons, List.length_cons]
      exact ⟨by omega, trivial, trivial⟩
  · intro dev2 fs
    induction fs with
    | nil => intro t rows; exact List.prefix_rfl
    | cons f fs ih =>
      intro t rows
      rw [sweepRun]
      cases h1 : dev2 t f with
      | some r => exact (List.prefix_append rows _).trans (ih (t + 1) _)
      | none =>
        cases h2 : dev2 (t + 1) 1 with
        | none => exact List.prefix_rfl
        | some p =>
          cases h3 : dev2 (t + 2) f with
          | none => exact List.prefix_rfl
          | some r => exact (List.prefix_append rows _).trans (ih (t + 3) _)
  · intro packets fuel npts
    induction npts with
    | zero => intro k rows _ _; simp [biologicSweep]
    | succ npts ih =>
      intro k rows hfuel hall
      obtain ⟨m, rfl⟩ : ∃ m, fuel = m + 1 := ⟨fuel - 1, by omega⟩
      obtain ⟨h1, r, h2⟩ := hall k
      have hred : biologicSweep packets (m + 1) (npts + 1) k rows
          = biologicSweep packets (m + 1) npts (k + 1) (rows ++ [r]) := by
        rw [biologicSweep, get_result_ok packets k m r h1 h2]
        show biologicSweep packets (m + 1) npts (k + 1)
          (if (1 : ℤ) = 1 then rows ++ [r] else rows) = _
        rw [if_pos rfl]
      rw [hred]
      obtain ⟨hl, hc⟩ := ih (k + 1) (rows ++ [r]) hfuel hall
      refine ⟨?_, hc⟩
      rw [hl]
      simp only [List.length_append, List.length_cons, List.length_nil]
      omega

/-- device trace for the C4 witness: every call answers with the same row. -/
def devC4 : ℕ → ℝ → Option String := fun _ _ => some "1,2,3"

/-- packet trace for the C4 witness: every packet is a process-1 row with a
nonzero current entry. -/
def packetsC4 : ℕ → BLPacket := fun _ => ⟨1, [5, 3, 2, 7]⟩

/-- C4 witness: a two-frequency sweep with no failures writes exactly two rows
and completes, and a three-iteration biologic loop writes exactly three rows. -/
theorem c4_witness :
    (sweepRun devC4 [5, 2] 0 []).rows.length = 2 ∧
    (sweepRun devC4 [5, 2] 0 []).completed = true ∧
    (biologicSweep packetsC4 1 3 0 []).1.length = 3 ∧
    (biologicSweep packetsC4 1 3 0 []).2 = true := by
  have h := c4_sweep_emits_one_row_per_frequency devC4 (fun _ => "1,2,3") (fun _ _ => rfl)
  have h1 := h.1 [5, 2] 0 []
  have h3 := h.2.2 packetsC4 1 3 0 [] (by norm_num)
    (fun j => ⟨rfl, ⟨[pyRound2 5, pyRound2 (|3| / |2|), pyRound2 7], by
      show resultRow [5, 3, 2, 7] = _
      norm_num [resultRow]⟩⟩)
  refine ⟨by rw [h1]; rfl, by rw [h1], by rw [h3.1]; rfl, h3.2⟩

/-- C5: a first `measure_frequency` failure at a frequency is recovered by one
probe measurement at the nominal 1 Hz frequency followed by exactly one retry of
the original frequency (three device calls in place of one), after which the
sweep continues normally; a second failure at that frequency is fatal: the
thread dies with no result emitted for that frequency and zero further results. -/
theorem c5_single_retry_then_fatal (device : ℕ → ℝ → Option String) (f : ℝ)
    (fs : List ℝ) (t : ℕ) (rows : List String) (hfail : device t f = none) :
    (∀ p r, device (t + 1) 1 = some p → device (t + 2) f = some r →
      sweepRun device (f :: fs) t rows
        = sweepRun device fs (t + 3) (rows ++ [formatRow r])) ∧
    (∀ p, device (t + 1) 1 = some p → device (t + 2) f = none →
      sweepRun device (f :: fs) t rows = ⟨t + 3, rows, false⟩) := by
  constructor
  · intro p r h1 h2
    rw [sweepRun, hfail, h1, h2]
  · intro p h1 h2
    rw [sweepRun, hfail, h1, h2]

/-- device trace for the C5 witness: the first call fails, all later calls
succeed. -/
def devC5 : ℕ → ℝ → Option String := fun t _ => if t = 0 then none else some "1,2,3"

/-- device trace for the second C5 witness: the first and third calls fail, the
probe in between succeeds. -/
def devC5b : ℕ → ℝ → Option String := fun t _ => if t = 1 then some "1,2,3" else none

/-- C5 witness: one failure is recovered after exactly one probe-and-retry
cycle; two failures at the same frequency abort the sweep with the rows written
so far and `completed = false`. -/
theorem c5_witness :
    sweepRun devC5 [0] 0 [] = sweepRun devC5 [] 3 [formatRow "1,2,3"] ∧
    sweepRun devC5b [0] 0 [] = ⟨3, [], false⟩ := by
  constructor
  · exact (c5_single_retry_then_fatal devC5 0 [] 0 [] rfl).1 "1,2,3" "1,2,3" rfl rfl
  · exact (c5_single_retry_then_fatal devC5b 0 [] 0 [] rfl).2 "1,2,3" rfl rfl

/-- C10: the biologic result conversion computes `abs(V) / abs(I)` by an
unguarded division: any received data row whose third entry (the current
magnitude) is zero makes `get_result` raise `ZeroDivisionError`, which
propagates uncaught and aborts the sweep with no further rows written; under the
precondition that the reported current is nonzero the error branch is
unreachable. -/
theorem c10_unguarded_current_division :
    (∀ (a b c : ℚ) (rest : List ℚ), c = 0 →
      resultRow (a :: b :: c :: rest) = .error .zeroDivision) ∧
    (∀ (a b c : ℚ) (rest : List ℚ), c ≠ 0 →
      resultRow (a :: b :: c :: rest) ≠ .error .zeroDivision) ∧
    (∀ (packets : ℕ → BLPacket) (fuel npts k k2 : ℕ) (e : PyErr) (rows : List (List ℚ)),
      get_result packets k fuel = some (k2, .error e) →
      biologicSweep packets fuel (npts + 1) k rows = (rows, false)) := by
  refine ⟨?_, ?_, ?_⟩
  · intro a b c rest hc
    cases rest with
    | nil => rw [resultRow, if_pos hc]
    | cons d ds => rw [resultRow, if_pos hc]
  · intro a b c rest hc
    cases rest with
    | nil => rw [resultRow, if_neg hc]; exact fun h => PyErr.noConfusion (Except.error.inj h)
    | cons d ds => rw [resultRow, if_neg hc]; exact fun h => Except.noConfusion h
  · intro packets fuel npts k k2 e rows hget
    rw [biologicSweep, hget]

/-- packet trace for the C10 witness: every packet reports a zero current in its
third entry. -/
def packetsC10 : ℕ → BLPacket := fun _ => ⟨1, [5, 3, 0, 7]⟩

/-- C10 witness: a zero current magnitude raises the division error and the
three-point sweep aborts with an empty file body. -/
theorem c10_witness :
    resultRow [5, 3, 0, 7] = .error .zeroDivision ∧
    biologicSweep packetsC10 1 3 0 [] = ([], false) := by
  have h1 := (c10_unguarded_current_division).1 5 3 0 [7] rfl
  have hdata : (packetsC10 0).data = [5, 3, 0, 7] := rfl
  have hget : get_result packetsC10 0 1 = some (1, .error .zeroDivision) := by
    unfold get_result
    rw [if_pos ⟨rfl, by rw [hdata]; simp⟩, hdata, h1]
    rfl
  exact ⟨h1, (c10_unguarded_current_division).2.2 packetsC10 1 2 0 1 .zeroDivision [] hget⟩

/-! ## Per-temperature-point control (`RunningPage.ramp_and_measure`) -/

/-- the inner `while stage.get_holdtime_remaining() == 0.0: time.sleep(1)` poll:
the first second at or after `c` with a nonzero reading (`none` = fuel ran out). -/
def holdPollLoop (holdRem : ℕ → ℚ) : ℕ → ℕ → Option ℕ
  | _, 0 => none
  | c, fuel + 1 => if holdRem c = 0 then holdPollLoop holdRem (c + 1) fuel else some c

/-- the outer reaching loop of `ramp_and_measure`: `_start_heating`, a 3-second
sleep, the hold poll, then the coarse `temp - 1 <= get_temperature() <= temp + 1`
check; outside the band the whole step repeats with another `_start_heating`.
Returns the exit second together with the number of `_start_heating` issues. -/
def reachLoop (holdRem temp : ℕ → ℚ) (target : ℚ) : ℕ → ℕ → ℕ → Option (ℕ × ℕ)
  | _, _, 0 => none
  | c, heats, fuel + 1 =>
    match holdPollLoop holdRem (c + 3) fuel with
    | none => none
    | some c1 =>
      if target - 1 ≤ temp c1 ∧ temp c1 ≤ target + 1 then some (c1, heats + 1)
      else reachLoop holdRem temp target c1 (heats + 1) fuel

/-- the settling loop
`while not (temp - tolerance <= get_temperature() <= temp + tolerance)`: the
first second at or after `c` with a reading inside the driver tolerance. -/
def settleLoop (temp : ℕ → ℚ) (target tol : ℚ) : ℕ → ℕ → Option ℕ
  | _, 0 => none
  | c, fuel + 1 =>
    if target - tol ≤ temp c ∧ temp c ≤ target + tol then some c
    else settleLoop temp target tol (c + 1) fuel

/-- record of one completed per-point control run: exit second of the reaching
loop, number of heating commands, exit second of the settling loop (equal to
the dwell start), and the second at which the mandatory dwell ends. -/
structure PointRun where
  reachExit : ℕ
  heats : ℕ
  settleExit : ℕ
  dwellEnd : ℕ
deriving DecidableEq

/-- one temperature point of `ramp_and_measure` up to the end of the mandatory
dwell: reaching, `toggle_hold`, settling — skipped entirely when the stage is
the virtual one (`if not isinstance(stage, virtual.stage)`) — then the
`min_holdtime`-second countdown, which runs on wall-clock time alone.  No
cancellation flag is consulted anywhere in these loops. -/
def pointControlCore (holdRem temp : ℕ → ℚ) (tol : ℚ) (isVirtual : Bool)
    (target : ℚ) (minHold fuel : ℕ) : Option PointRun :=
  match reachLoop holdRem temp target 0 0 fuel with
  | none => none
  | some (c1, h) =>
    match (if isVirtual then some c1 else settleLoop temp target tol c1 fuel) with
    | none => none
    | some c2 => some ⟨c1, h, c2, c2 + minHold⟩

/-- the stage-facing state visible to `RunningPage`: hardware readings by
second, the driver tolerance, and the `stop_thread` flag by second. -/
structure StageTr where
  holdRem : ℕ → ℚ
  temp : ℕ → ℚ
  tol : ℚ
  stopFlag : ℕ → Bool

/-- the per-point control run from a full stage view; the `stopFlag` field is
simply never read, as in the source. -/
def pointControl (tr : StageTr) (isVirtual : Bool) (target : ℚ) (minHold fuel : ℕ) :
    Option PointRun :=
  pointControlCore tr.holdRem tr.temp tr.tol isVirtual target minHold fuel

theorem holdPollLoop_spec (holdRem : ℕ → ℚ) :
    ∀ fuel c c1, holdPollLoop holdRem c fuel = some c1 → c ≤ c1 ∧ holdRem c1 ≠ 0 := by
  intro fuel
  induction fuel with
  | zero => intro c c1 h; exact Option.noConfusion h
  | succ fuel ih =>
    intro c c1 h
    rw [holdPollLoop] at h
    by_cases hz : holdRem c = 0
    · rw [if_pos hz] at h
      obtain ⟨hle, hne⟩ := ih (c + 1) c1 h
      exact ⟨by omega, hne⟩
    · rw [if_neg hz] at h
      obtain rfl := Option.some.inj h
      exact ⟨le_refl c, hz⟩

theorem reachLoop_spec (holdRem temp : ℕ → ℚ) (target : ℚ) :
    ∀ fuel c h0 c1 h, reachLoop holdRem temp target c h0 fuel = some (c1, h) →
      holdRem c1 ≠ 0 ∧ target - 1 ≤ temp c1 ∧ temp c1 ≤ target + 1 := by
  intro fuel
  induction fuel with
  | zero => intro c h0 c1 h hr; exact Option.noConfusion hr
  | succ fuel ih =>
    intro c h0 c1 h hr
    rw [reachLoop] at hr
    split at hr
    · exact Option.noConfusion hr
    · rename_i ca hp
      split at hr
      · rename_i hband
        obtain ⟨rfl, rfl⟩ := Prod.ext_iff.mp (Option.some.inj hr)
        exact ⟨(holdPollLoop_spec holdRem fuel (c + 3) ca hp).2, hband⟩
      · rename_i hband
        exact ih ca (h0 + 1) c1 h hr

theorem settleLoop_spec (temp : ℕ → ℚ) (target tol : ℚ) :
    ∀ fuel c c2, settleLoop temp target tol c fuel = some c2 →
      c ≤ c2 ∧ (target - tol ≤ temp c2 ∧ temp c2 ≤ target + tol) ∧
      ∀ t, c ≤ t → t < c2 → ¬(target - tol ≤ temp t ∧ temp t ≤ target + tol) := by
  intro fuel
  induction fuel with
  | zero => intro c c2 h; exact Option.noConfusion h
  | succ fuel ih =>
    intro c c2 h
    rw [settleLoop] at h
    by_cases hin : target - tol ≤ temp c ∧ temp c ≤ target + tol
    · rw [if_pos hin] at h
      obtain rfl := Option.some.inj h
      exact ⟨le_refl c, hin, fun t h1 h2 => absurd h1 (by omega)⟩
    · rw [if_neg hin] at h
      obtain ⟨hle, hin2, hout⟩ := ih (c + 1) c2 h
      refine ⟨by omega, hin2, fun t h1 h2 => ?_⟩
      rcases Nat.eq_or_lt_of_le h1 with rfl | hgt
      · exact hin
      · exact hout t (by omega) h2

/-- with an immediately-holding stage whose temperature sits permanently two
degrees high, the reaching loop never gives up, whatever the fuel. -/
theorem reachLoop_unbounded (target : ℚ) :
    ∀ fuel c h0,
      reachLoop (fun _ => 1) (fun _ => target + 2) target c h0 fuel = none := by
  intro fuel
  induction fuel with
  | zero => intro c h0; rfl
  | succ fuel ih =>
    intro c h0
    rw [reachLoop]
    cases fuel with
    | zero => rfl
    | succ m =>
      rw [show holdPollLoop (fun _ => 1) (c + 3) (m + 1) = some (c + 3) by
        rw [holdPollLoop, if_neg (by norm_num)]]
      show (if target - 1 ≤ target + 2 ∧ target + 2 ≤ target + 1 then some (c + 3, h0 + 1)
        else reachLoop (fun _ => 1) (fun _ => target + 2) target (c + 3) (h0 + 1) (m + 1))
          = none
      rw [if_neg (by intro hb; linarith [hb.2])]
      exact ih (c + 3) (h0 + 1)

theorem pointControlCore_elim (holdRem temp : ℕ → ℚ) (tol : ℚ) (isVirtual : Bool)
    (target : ℚ) (minHold fuel : ℕ) (pr : PointRun)
    (h : pointControlCore holdRem temp tol isVirtual target minHold fuel = some pr) :
    ∃ c1 hh c2, reachLoop holdRem temp target 0 0 fuel = some (c1, hh) ∧
      (if isVirtual then some c1 else settleLoop temp target tol c1 fuel) = some c2 ∧
      pr = ⟨c1, hh, c2, c2 + minHold⟩ := by
  unfold pointControlCore at h
  split at h
  · exact Option.noConfusion h
  · rename_i c1 hh hre
    split at h
    · exact Option.noConfusion h
    · rename_i c2 hse
      exact ⟨c1, hh, c2, hre, hse, (Option.some.inj h).symm⟩

/-- C8 (amended: for non-virtual stages): a completed per-point control run
begins the `min_holdtime` dwell only after (a) the hold-time reading came back
nonzero (positive, for non-negative readings) with the temperature inside the
coarse `target ± 1` band — with heating re-issued on failure and no bound on the
number of retries (the last conjunct: an always-out-of-band trace exhausts any
fuel) — and (b) `toggle_hold` was engaged and the temperature was polled at
1-second steps until the first second inside the driver tolerance, which is the
dwell start; the dwell then lasts exactly `min_holdtime` seconds. -/
theorem c8_dwell_preconditions (holdRem temp : ℕ → ℚ) (tol target : ℚ)
    (minHold fuel : ℕ) (pr : PointRun)
    (hnn : ∀ t, 0 ≤ holdRem t)
    (hrun : pointControlCore holdRem temp tol false target minHold fuel = some pr) :
    (0 < holdRem pr.reachExit ∧
      target - 1 ≤ temp pr.reachExit ∧ temp pr.reachExit ≤ target + 1) ∧
    (pr.reachExit ≤ pr.settleExit ∧
      (target - tol ≤ temp pr.settleExit ∧ temp pr.settleExit ≤ target + tol) ∧
      ∀ t, pr.reachExit ≤ t → t < pr.settleExit →
        ¬(target - tol ≤ temp t ∧ temp t ≤ target + tol)) ∧
    pr.dwellEnd = pr.settleExit + minHold ∧
    (∀ fl c h0, reachLoop (fun _ => 1) (fun _ => target + 2) target c h0 fl = none) := by
  obtain ⟨c1, hh, c2, hre, hse, rfl⟩ :=
    pointControlCore_elim holdRem temp tol false target minHold fuel pr hrun
  rw [if_neg (by simp)] at hse
  obtain ⟨hne, hband⟩ := reachLoop_spec holdRem temp target fuel 0 0 c1 hh hre
  obtain ⟨hle, hin, hout⟩ := settleLoop_spec temp target tol fuel c1 c2 hse
  exact ⟨⟨lt_of_le_of_ne (hnn c1) (Ne.symm hne), hband⟩, ⟨hle, hin, hout⟩, rfl,
    fun fl c h0 => reachLoop_unbounded target fl c h0⟩

/-- C8 witness: a non-virtual run against a stage that is immediately holding
at the target temperature exits reaching at second 3 after one heating command,
settles at once, and dwells for the requested 2 seconds. -/
theorem c8_witness :
    pointControlCore (fun _ => (1 : ℚ)) (fun _ => (0 : ℚ)) 1 false 0 2 5
      = some ⟨3, 1, 3, 5⟩ ∧
    (0 < (1 : ℚ) ∧ (0 : ℚ) - 1 ≤ 0 ∧ (0 : ℚ) ≤ 0 + 1) := by
  have heval : pointControlCore (fun _ => (1 : ℚ)) (fun _ => (0 : ℚ)) 1 false 0 2 5
      = some ⟨3, 1, 3, 5⟩ := by
    norm_num [pointControlCore, reachLoop, holdPollLoop, settleLoop]
  have h := c8_dwell_preconditions (fun _ => 1) (fun _ => 0) 1 0 2 5 ⟨3, 1, 3, 5⟩
    (fun _ => by norm_num) heval
  exact ⟨heval, h.1⟩

/-- C8 counterexample: with the virtual stage the settling poll is skipped
(`if not isinstance(stage, virtual.stage)`): a run whose temperature sits at 1°
above a target with tolerance 0 completes reaching (the coarse band allows 1°)
and begins the dwell immediately, with the temperature never inside the
tolerance — refuting the claim as stated for every stage. -/
theorem c8_counterexample :
    ¬ (∀ (holdRem temp : ℕ → ℚ) (tol : ℚ) (isVirtual : Bool) (target : ℚ)
        (minHold fuel : ℕ) (pr : PointRun),
        pointControlCore holdRem temp tol isVirtual target minHold fuel = some pr →
        (holdRem pr.reachExit ≠ 0 ∧
          target - 1 ≤ temp pr.reachExit ∧ temp pr.reachExit ≤ target + 1) ∧
        (target - tol ≤ temp pr.settleExit ∧ temp pr.settleExit ≤ target + tol)) := by
  intro hclaim
  have heval : pointControlCore (fun _ => 1) (fun _ => 1) 0 true 0 2 5
      = some ⟨3, 1, 3, 5⟩ := by
    norm_num [pointControlCore, reachLoop, holdPollLoop]
  have h := hclaim (fun _ => 1) (fun _ => 1) 0 true 0 2 5 ⟨3, 1, 3, 5⟩ heval
  have h2 := h.2.2
  norm_num at h2

/-! ## Decimal rendering (Python `str`) -/

/-- a decimal digit character. -/
def digitChar (d : ℕ) : Char := Char.ofNat (48 + d)

/-- fuel-driven decimal expansion (the fuel `n + 1` always suffices). -/
def natCharsAux : ℕ → ℕ → List Char
  | 0, _ => []
  | fuel + 1, n =>
      if n < 10 then [digitChar n]
      else natCharsAux fuel (n / 10) ++ [digitChar (n % 10)]

/-- Python `str(n)` for a natural number, as its list of characters. -/
def natChars (n : ℕ) : List Char := natCharsAux (n + 1) n

theorem natChars_ne_nil (n : ℕ) : natChars n ≠ [] := by
  unfold natChars natCharsAux
  by_cases h : n < 10
  · rw [if_pos h]; exact List.cons_ne_nil _ _
  · rw [if_neg h]
    intro hx
    exact List.cons_ne_nil _ _ (List.append_eq_nil.mp hx).2

theorem digitChar_ne_underscore (d : ℕ) (h : d < 10) : digitChar d ≠ '_' := by
  interval_cases d <;> decide

theorem underscore_not_mem_natCharsAux : ∀ fuel n, '_' ∉ natCharsAux fuel n := by
  intro fuel
  induction fuel with
  | zero => intro n h; rw [natCharsAux] at h; exact List.not_mem_nil _ h
  | succ fuel ih =>
    intro n
    rw [natCharsAux]
    by_cases h : n < 10
    · rw [if_pos h]
      intro hmem
      rcases List.mem_singleton.mp hmem with h2
      exact digitChar_ne_underscore n h h2.symm
    · rw [if_neg h]
      intro hmem
      rcases List.mem_append.mp hmem with h2 | h2
      · exact ih (n / 10) h2
      · exact digitChar_ne_underscore (n % 10) (Nat.mod_lt n (by norm_num))
          (List.mem_singleton.mp h2).symm

theorem underscore_not_mem_natChars (n : ℕ) : '_' ∉ natChars n :=
  underscore_not_mem_natCharsAux (n + 1) n

/-! ## Temperature sampler and stop handler
(`RunningPage._update_temperature_and_time`, `RunningPage.stop_button_func`) -/

/-- the sampler thread loop `while not self.stop_thread:` — read the
temperature (rounded to two decimals), append a `(seconds, temperature)` row,
sleep one second; the `stop_thread` flag is re-checked before every iteration. -/
def samplerLoop (stopFlag : ℕ → Bool) (temp : ℕ → ℚ) : ℕ → ℕ → List (ℕ × ℚ)
  | _, 0 => []
  | t, fuel + 1 =>
      if stopFlag t then []
      else (t, pyRound2 (temp t)) :: samplerLoop stopFlag temp (t + 1) fuel

/-- the persisted `details.json` fields relevant to completion and elapsed
time. -/
structure DetailsJson where
  complete : Bool
  time_elapsed : Option (List Char)
deriving DecidableEq

/-- `details.json` as written by `StartPage.start_button_func`:
`"complete": False` and no elapsed-time field yet. -/
def initialDetails : DetailsJson := ⟨false, none⟩

/-- `RunningPage.stop_button_func`: `stage.stop_heating()` (the boolean), then
the details file is rewritten with `time_elapsed` set to the current Time
Elapsed label; the `complete` field is rewritten as read. -/
def stop_button_func (d : DetailsJson) (label : List Char) : Bool × DetailsJson :=
  (true, ⟨d.complete, some label⟩)

/-- the `"H:MM:SS"` rendering of `str(datetime.timedelta(seconds = s))` for
under a day; two-digit padding on minutes and seconds. -/
def pad2 (n : ℕ) : List Char := if n < 10 then '0' :: natChars n else natChars n

def hmsChars (s : ℕ) : List Char :=
  natChars (s / 3600) ++ ':' :: (pad2 (s % 3600 / 60) ++ ':' :: pad2 (s % 60))

/-- the Time Elapsed label after `k` sampler iterations: initially `"-"`, then
the rendered elapsed time of the latest tick. -/
def elapsedLabel (sec : ℕ → ℕ) (k : ℕ) : List Char :=
  if k = 0 then ['-'] else hmsChars (sec (k - 1))

theorem samplerLoop_run (stopFlag : ℕ → Bool) (temp : ℕ → ℚ) (t0 : ℕ) :
    ∀ fuel t, (∀ s, t ≤ s → s < t0 → stopFlag s = false) →
      (∀ s, t0 ≤ s → stopFlag s = true) → t ≤ t0 → t0 ≤ t + fuel →
      samplerLoop stopFlag temp t fuel
        = (List.range' t (t0 - t)).map (fun s => (s, pyRound2 (temp s))) := by
  intro fuel
  induction fuel with
  | zero =>
    intro t _ _ hle hge
    have : t = t0 := by omega
    subst this
    rw [Nat.sub_self]
    rfl
  | succ fuel ih =>
    intro t hbefore hafter hle hge
    rcases Nat.eq_or_lt_of_le hle with rfl | hlt
    · rw [samplerLoop, if_pos (hafter t (le_refl t)), Nat.sub_self]
      rfl
    · rw [samplerLoop, if_neg (by rw [hbefore t (le_refl t) hlt]; simp)]
      rw [ih (t + 1) (fun s h1 h2 => hbefore s (by omega) h2) hafter (by omega) (by omega)]
      rw [show t0 - t = (t0 - (t + 1)) + 1 by omega, List.range'_succ]
      rfl

/-- C2 (amended): the `stop_thread` cancellation flag is cooperative only for
the temperature-sampler loop, which checks it at every 1-second iteration and
stops at the first second it is set; `stop_button_func` stops the stage and
persists the details record with the `complete` field left `false` (as written
at experiment start) and the current elapsed-time label, which is never the
empty string; the per-temperature-point control loops (reaching, settling,
holding) never read the flag: their outcome is identical under any two flag
traces, and they are ended only by process exit. -/
theorem c2_cancellation_flag_behaviour :
    (∀ (stopFlag : ℕ → Bool) (temp : ℕ → ℚ) (t0 fuel : ℕ),
      (∀ s, s < t0 → stopFlag s = false) → (∀ s, t0 ≤ s → stopFlag s = true) →
      t0 ≤ fuel →
      samplerLoop stopFlag temp 0 fuel
        = (List.range t0).map (fun s => (s, pyRound2 (temp s)))) ∧
    (∀ (d : DetailsJson) (label : List Char),
      (stop_button_func d label).1 = true ∧
      (stop_button_func d label).2.complete = d.complete ∧
      (stop_button_func d label).2.time_elapsed = some label) ∧
    initialDetails.complete = false ∧
    (∀ sec k, elapsedLabel sec k ≠ []) ∧
    (∀ (holdRem temp : ℕ → ℚ) (tol : ℚ) (flag1 flag2 : ℕ → Bool) (isVirtual : Bool)
      (target : ℚ) (minHold fuel : ℕ),
      pointControl ⟨holdRem, temp, tol, flag1⟩ isVirtual target minHold fuel
        = pointControl ⟨holdRem, temp, tol, flag2⟩ isVirtual target minHold fuel) := by
  refine ⟨?_, fun d label => ⟨rfl, rfl, rfl⟩, rfl, ?_, fun _ _ _ _ _ _ _ _ _ => rfl⟩
  · intro stopFlag temp t0 fuel hbefore hafter hfuel
    rw [samplerLoop_run stopFlag temp t0 fuel 0 (fun s _ h2 => hbefore s h2) hafter
      (Nat.zero_le t0) (by omega)]
    rw [Nat.sub_zero, ← List.range_eq_range']
  · intro sec k
    unfold elapsedLabel
    by_cases h : k = 0
    · rw [if_pos h]; exact List.cons_ne_nil _ _
    · rw [if_neg h]
      unfold hmsChars
      intro hx
      exact natChars_ne_nil _ (List.append_eq_nil.mp hx).1

/-- C2 witness: a flag first set at second 2 stops the sampler after exactly the
samples for seconds 0 and 1, and the stop handler persists `complete = false`
with the non-empty elapsed label. -/
theorem c2_witness :
    samplerLoop (fun t => decide (2 ≤ t)) (fun _ => 25) 0 5
      = [(0, pyRound2 25), (1, pyRound2 25)] ∧
    (stop_button_func initialDetails (elapsedLabel (fun _ => 7) 3)).2.complete = false ∧
    elapsedLabel (fun _ => 7) 3 ≠ [] := by
  have h := c2_cancellation_flag_behaviour
  refine ⟨?_, (h.2.1 initialDetails (elapsedLabel (fun _ => 7) 3)).2.1.trans h.2.2.1,
    h.2.2.2.1 (fun _ => 7) 3⟩
  rw [h.1 (fun t => decide (2 ≤ t)) (fun _ => 25) 2 5
    (fun s hs => by simp; omega) (fun s hs => by simp; omega) (by norm_num)]
  rfl

/-- C2 counterexample: the claim says the cancellation flag is checked at every
1-second poll boundary of the control loops, terminating the run when set; but
with the flag raised from second 0 the per-point control still runs to
completion, dwell included — the loops never consult the flag. -/
theorem c2_counterexample :
    ¬ (∀ (tr : StageTr) (isVirtual : Bool) (target : ℚ) (minHold fuel : ℕ),
        tr.stopFlag 0 = true →
        pointControl tr isVirtual target minHold fuel = none) := by
  intro hclaim
  have heval : pointControl ⟨fun _ => 1, fun _ => 0, 1, fun _ => true⟩ true 0 2 5
      = some ⟨3, 1, 3, 5⟩ := by
    norm_num [pointControl, pointControlCore, reachLoop, holdPollLoop]
  have h := hclaim ⟨fun _ => 1, fun _ => 0, 1, fun _ => true⟩ true 0 2 5 rfl
  rw [heval] at h
  exact Option.noConfusion h

/-! ## Experiment-name de-duplication (`StartPage.start_button_func`) -/

/-- Python `name.split("_")` on a character list. -/
def splitU : List Char → List (List Char)
  | [] => [[]]
  | c :: cs =>
    if c = '_' then [] :: splitU cs
    else
      match splitU cs with
      | [] => [[c]]
      | p :: ps => (c :: p) :: ps

/-- the duplicate-name loop of `start_button_func`: while a directory called
`name` exists, the name is replaced — by `split("_")[0] + "_" + str(dup)` when
the last underscore component equals `str(dup - 1)`, by `name + "_" + str(dup)`
otherwise — and `dup` is incremented; the first fresh name is the directory
created (`none` = fuel ran out). -/
def dedupName (exists_dir : List Char → Bool) : ℕ → List Char → ℕ → Option (List Char)
  | 0, _, _ => none
  | fuel + 1, name, dup =>
      if exists_dir name = false then some name
      else
        dedupName exists_dir fuel
          (if (splitU name).getLastD [] = natChars (dup - 1)
           then (splitU name).headD [] ++ '_' :: natChars dup
           else name ++ '_' :: natChars dup)
          (dup + 1)

/-- the loop as entered: `duplicate_num = 1`. -/
def dedupStart (exists_dir : List Char → Bool) (fuel : ℕ) (name : List Char) :
    Option (List Char) :=
  dedupName exists_dir fuel name 1

theorem splitU_no_underscore (a : List Char) (h : '_' ∉ a) : splitU a = [a] := by
  induction a with
  | nil => rfl
  | cons c cs ih =>
    have hc : c ≠ '_' := fun he => h (he ▸ List.mem_cons_self c cs)
    have hcs : '_' ∉ cs := fun hm => h (List.mem_cons_of_mem c hm)
    rw [splitU, if_neg hc, ih hcs]

theorem splitU_append_underscore (a b : List Char) (h : '_' ∉ a) :
    splitU (a ++ '_' :: b) = a :: splitU b := by
  induction a with
  | nil => rw [List.nil_append, splitU, if_pos rfl]
  | cons c cs ih =>
    have hc : c ≠ '_' := fun he => h (he ▸ List.mem_cons_self c cs)
    have hcs : '_' ∉ cs := fun hm => h (List.mem_cons_of_mem c hm)
    rw [List.cons_append, splitU, if_neg hc, ih hcs]

theorem dedupName_run (exists_dir : List Char → Bool) (orig : List Char)
    (hund : '_' ∉ orig) (N : ℕ)
    (hfresh : exists_dir (orig ++ '_' :: natChars N) = false)
    (hbusy : ∀ m, 1 ≤ m → m < N → exists_dir (orig ++ '_' :: natChars m) = true) :
    ∀ fuel j, 1 ≤ j → j ≤ N → N - j < fuel →
      dedupName exists_dir fuel (orig ++ '_' :: natChars j) (j + 1)
        = some (orig ++ '_' :: natChars N) := by
  intro fuel
  induction fuel with
  | zero => intro j h1 h2 h3; omega
  | succ fuel ih =>
    intro j h1 h2 h3
    rcases Nat.eq_or_lt_of_le h2 with rfl | hjN
    · rw [dedupName, if_pos hfresh]
    · rw [dedupName, if_neg (by rw [hbusy j h1 hjN]; simp)]
      have hsplit : splitU (orig ++ '_' :: natChars j) = [orig, natChars j] := by
        rw [splitU_append_underscore orig (natChars j) hund,
          splitU_no_underscore (natChars j) (underscore_not_mem_natChars j)]
      rw [hsplit]
      have hred : (if [orig, natChars j].getLastD [] = natChars (j + 1 - 1)
          then [orig, natChars j].headD [] ++ '_' :: natChars (j + 1)
          else (orig ++ '_' :: natChars j) ++ '_' :: natChars (j + 1))
            = orig ++ '_' :: natChars (j + 1) := by
        rw [if_pos (show [orig, natChars j].getLastD [] = natChars (j + 1 - 1) from rfl)]
        rfl
      rw [hred]
      exact ih (j + 1) (by omega) (by omega) (by omega)

/-- C9 (amended): a fresh name is used as is; an experiment name that contains
no underscore is de-duplicated to `name_N` for the least `N ≥ 1` making the
directory fresh.  (For names that do contain an underscore, later collisions
replace everything after the name's first underscore component — see the
counterexample.) -/
theorem c9_dedup_appends_suffix :
    (∀ (exists_dir : List Char → Bool) (orig : List Char) (fuel : ℕ),
      exists_dir orig = false → 1 ≤ fuel →
      dedupStart exists_dir fuel orig = some orig) ∧
    (∀ (exists_dir : List Char → Bool) (orig : List Char) (N fuel : ℕ),
      '_' ∉ orig → exists_dir orig = true → 1 ≤ N →
      exists_dir (orig ++ '_' :: natChars N) = false →
      (∀ m, 1 ≤ m → m < N → exists_dir (orig ++ '_' :: natChars m) = true) →
      N < fuel →
      dedupStart exists_dir fuel orig = some (orig ++ '_' :: natChars N)) := by
  constructor
  · intro exists_dir orig fuel hfresh hfuel
    obtain ⟨f, rfl⟩ : ∃ f, fuel = f + 1 := ⟨fuel - 1, by omega⟩
    rw [dedupStart, dedupName, if_pos hfresh]
  · intro exists_dir orig N fuel hund hbusy0 hN hfresh hbusy hfuel
    obtain ⟨f, rfl⟩ : ∃ f, fuel = f + 1 := ⟨fuel - 1, by omega⟩
    rw [dedupStart, dedupName, if_neg (by rw [hbusy0]; simp)]
    rw [splitU_no_underscore orig hund]
    have hred : (if [orig].getLastD [] = natChars (1 - 1)
        then [orig].headD [] ++ '_' :: natChars 1
        else orig ++ '_' :: natChars 1) = orig ++ '_' :: natChars 1 := by
      by_cases hcase : [orig].getLastD [] = natChars (1 - 1)
      · rw [if_pos hcase]; rfl
      · rw [if_neg hcase]
    rw [hred]
    exact dedupName_run exists_dir orig hund N hfresh hbusy f 1 (le_refl 1) hN (by omega)

/-- the existing-directory set for the C9 counterexample. -/
def existsC9 : List Char → Bool := fun s => s == "a_b".toList || s == "a_b_1".toList

/-- C9 counterexample: starting from the name `a_b` with directories `a_b` and
`a_b_1` already present, the loop produces `a_2` — not `a_b_2`: the used
directory is not the original name with an underscore-number suffix appended
(the original name is not even a prefix of it). -/
theorem c9_counterexample :
    dedupStart existsC9 10 "a_b".toList = some "a_2".toList ∧
    ¬ ("a_b".toList <+: "a_2".toList) := by
  constructor
  · decide
  · decide

/-- the existing-directory set for the C9 witness. -/
def existsC9w : List Char → Bool := fun s => s == "exp".toList || s == "exp_1".toList

/-- C9 witness: the underscore-free name `exp` with `exp` and `exp_1` taken is
de-duplicated to `exp_2`. -/
theorem c9_witness :
    dedupStart existsC9w 3 "exp".toList = some ("exp".toList ++ '_' :: natChars 2) :=
  c9_dedup_appends_suffix.2 existsC9w "exp".toList 2 3 (by decide) (by decide)
    (by norm_num) (by decide)
    (fun m h1 h2 => by
      have : m = 1 := by omega
      subst this
      decide)
    (by norm_num)

end Vtipy2
